/-
Verification of the mongo-collection repository layer.

Shallow embedding of the Rust sources:
  * `src/mongo-collection/src/repository/models.rs` — `PaginatedQuery`, `SortOrder`,
    `PaginatedData<T>`, `ListData<T>` and their `skip`/`limit`/`map`/`try_map` methods;
  * `src/mongo-collection/src/list.rs` — `ListQuery::parsed_filters` (filter-key
    normalization) and the (identical) `ListData<T>`;
  * `src/mongo-collection/src/utils.rs` — `parse_object_id`;
  * `src/mongo-collection/src/repository/traits.rs` — the `CollectionRepository`
    default methods `find_many`, `find_paginated`, `update_by_id`, `update_one`,
    `update_many`.

Conventions of the embedding:
  * Rust `u64` values are `Nat` together with an explicit `< 2 ^ 64` bound where it
    matters; wrapping (release-mode) arithmetic is written out with `% 2 ^ 64`.
  * Rust `HashMap` values are association lists in iteration order; `HashMap::insert`
    is modelled by an in-place replace-or-append operation.
  * Fallible Rust code returns `Except`; the MongoDB driver collection handle is an
    abstract record of its primitive operations, each of which may fail.
  * `f64` arithmetic (only used in the `total_pages` computation) is modelled
    faithfully: operands are rounded to the IEEE754 binary64 value grid (round to
    nearest, ties to even) before and after the division, and the `as u64` cast
    truncates and saturates.
-/
import Mathlib

set_option autoImplicit false

/-! ## u64 arithmetic -/

/-- The modulus of Rust `u64` arithmetic. -/
def u64size : Nat := 2 ^ 64

/-- A Rust `u64` subtraction `a - b` underflows when the (mathematical) result would
be negative. -/
def u64SubUnderflows (a b : Nat) : Prop := a < b

instance (a b : Nat) : Decidable (u64SubUnderflows a b) := by
  unfold u64SubUnderflows; infer_instance

/-- Embedding of the Rust cast `v as i64` for `v : u64` (`v < 2 ^ 64`):
two's-complement reinterpretation of the bit pattern. -/
def u64AsI64 (v : Nat) : Int :=
  if v < 2 ^ 63 then (v : Int) else (v : Int) - (u64size : Int)

/-! ## `SortOrder` and `PaginatedQuery` (repository/models.rs) -/

/-- Embedding of `enum SortOrder { Desc, Asc }` (default `Desc`). -/
inductive SortOrder where
  | Desc
  | Asc
deriving DecidableEq, Repr

/-- Embedding of `struct PaginatedQuery`.  `page` and `page_size` are `u64`
(`Nat` < `u64size`); the filters `HashMap` is an association list in iteration
order.  All fields are public and deserialization applies no validation, so every
inhabitant of this structure is constructible at the public interface. -/
structure PaginatedQuery where
  page : Nat
  page_size : Nat
  sort_by : Option String
  sort_order : SortOrder
  search : Option String
  filters : Option (List (String × String))

/-- Well-formedness of the `u64` fields: both fit in 64 bits. -/
def PaginatedQuery.WF (q : PaginatedQuery) : Prop :=
  q.page < u64size ∧ q.page_size < u64size

instance (q : PaginatedQuery) : Decidable q.WF := by
  unfold PaginatedQuery.WF; infer_instance

/-- Embedding of `PaginatedQuery::skip`: `(self.page - 1) * self.page_size` with
release-mode (wrapping) `u64` semantics. -/
def PaginatedQuery.skip (q : PaginatedQuery) : Nat :=
  ((q.page + u64size - 1) % u64size) * q.page_size % u64size

/-- Embedding of `PaginatedQuery::limit`: `self.page_size as i64`. -/
def PaginatedQuery.limit (q : PaginatedQuery) : Int :=
  u64AsI64 q.page_size

/-! ## `PaginatedData<T>` and `ListData<T>` -/

/-- Embedding of `struct PaginatedData<T>`. -/
structure PaginatedData (T : Type) where
  items : List T
  total_count : Nat
  page : Nat
  page_size : Nat
  total_pages : Nat

/-- Embedding of `PaginatedData::map`: replaces `items` by its elementwise image,
copies the four metadata fields. -/
def PaginatedData.map {T P : Type} (d : PaginatedData T) (f : T → P) : PaginatedData P :=
  { items := d.items.map f
    total_count := d.total_count
    page := d.page
    page_size := d.page_size
    total_pages := d.total_pages }

/-- Embedding of `self.items.into_iter().map(f).collect::<Result<Vec<_>, _>>()`:
left-to-right traversal that stops at the first failing element and returns its
error, otherwise the list of transformed elements. -/
def collectResults {T P E : Type} (f : T → Except E P) : List T → Except E (List P)
  | [] => Except.ok []
  | x :: rest =>
    match f x with
    | Except.error e => Except.error e
    | Except.ok y =>
      match collectResults f rest with
      | Except.error e => Except.error e
      | Except.ok ys => Except.ok (y :: ys)

/-- Embedding of `PaginatedData::try_map`. -/
def PaginatedData.try_map {T P E : Type} (d : PaginatedData T) (f : T → Except E P) :
    Except E (PaginatedData P) := do
  let items ← collectResults f d.items
  pure { items := items
         total_count := d.total_count
         page := d.page
         page_size := d.page_size
         total_pages := d.total_pages }

/-- Embedding of `struct ListData<T>` (defined identically in
`repository/models.rs` and `list.rs`). -/
structure ListData (T : Type) where
  items : List T
  total_count : Nat

/-- Embedding of `ListData::new`: `total_count` is the length of `items`. -/
def ListData.new {T : Type} (items : List T) : ListData T :=
  { total_count := items.length, items := items }

/-- Embedding of `ListData::map`. -/
def ListData.map {T P : Type} (d : ListData T) (f : T → P) : ListData P :=
  { items := d.items.map f, total_count := d.total_count }

/-- Embedding of `ListData::try_map`. -/
def ListData.try_map {T P E : Type} (d : ListData T) (f : T → Except E P) :
    Except E (ListData P) := do
  let items ← collectResults f d.items
  pure { items := items, total_count := d.total_count }

/-! ## `ListQuery` filter-key normalization (list.rs) -/

/-- Embedding of `str::strip_prefix` on character lists: removes `p` from the front
of `s` when `p` is a prefix, otherwise `none`. -/
def charsDropFront : List Char → List Char → Option (List Char)
  | [], s => some s
  | _ :: _, [] => none
  | p :: ps, c :: cs => if p = c then charsDropFront ps cs else none

/-- Embedding of `str::strip_suffix` on character lists: removes `p` from the end
of `s` when `p` is a suffix, otherwise `none`. -/
def charsDropBack (p s : List Char) : Option (List Char) :=
  (charsDropFront p.reverse s.reverse).map List.reverse

/-- `str::strip_prefix` on `String`. -/
def strDropFront (p s : String) : Option String :=
  (charsDropFront p.data s.data).map String.mk

/-- `str::strip_suffix` on `String`. -/
def strDropBack (p s : String) : Option String :=
  (charsDropBack p.data s.data).map String.mk

/-- The key recognizer inside `ListQuery::parsed_filters`: the bracket form
`key.strip_prefix("filters[").and_then(|s| s.strip_suffix("]"))` is tried first,
then the dot form `key.strip_prefix("filters.")`; the bare field name is returned,
`none` for an unrecognized key. -/
def parseFilterKey (key : String) : Option String :=
  match (strDropFront "filters[" key).bind (strDropBack "]") with
  | some k => some k
  | none => strDropFront "filters." key

/-- `HashMap::insert` on an association list: replace the value in place when the
key is present, otherwise append the new binding. -/
def mapInsert (m : List (String × String)) (k v : String) : List (String × String) :=
  match m with
  | [] => [(k, v)]
  | (k', v') :: rest => if k' = k then (k, v) :: rest else (k', v') :: mapInsert rest k v

/-- The loop body of `ListQuery::parsed_filters`, folded over the raw mapping in
iteration order starting from an empty `HashMap`. -/
def normalizeFilters (raw : List (String × String)) : List (String × String) :=
  raw.foldl
    (fun m kv =>
      match parseFilterKey kv.1 with
      | some k => mapInsert m k kv.2
      | none => m)
    []

/-- Embedding of `struct ListQuery` (list.rs). -/
structure ListQuery where
  sort_by : Option String
  sort_order : SortOrder
  search : Option String
  filters : Option (List (String × String))

/-- Embedding of `ListQuery::parsed_filters`: `None` when `filters` is `None`,
otherwise the normalized mapping. -/
def ListQuery.parsed_filters (q : ListQuery) : Option (List (String × String)) :=
  match q.filters with
  | some raw => some (normalizeFilters raw)
  | none => none

/-! ## Identifier codec (utils.rs) -/

/-- The value of one hexadecimal digit, `none` for a non-hex character. -/
def hexDigitVal (c : Char) : Option Nat :=
  if '0' ≤ c ∧ c ≤ '9' then some (c.toNat - '0'.toNat)
  else if 'a' ≤ c ∧ c ≤ 'f' then some (c.toNat - 'a'.toNat + 10)
  else if 'A' ≤ c ∧ c ≤ 'F' then some (c.toNat - 'A'.toNat + 10)
  else none

/-- Hex-decode a character list two digits at a time into bytes; fails on an odd
length or any non-hex character. -/
def hexDecode : List Char → Option (List Nat)
  | [] => some []
  | [_] => none
  | c1 :: c2 :: rest => do
    let h ← hexDigitVal c1
    let l ← hexDigitVal c2
    let bs ← hexDecode rest
    pure ((16 * h + l) :: bs)

/-- A BSON `ObjectId`: twelve bytes. -/
structure ObjectId where
  bytes : List Nat
deriving DecidableEq, Repr

/-- The error type of `ObjectId` string parsing (the spec's `InvalidIdentifier`). -/
inductive OidError where
  | invalidIdentifier
deriving DecidableEq, Repr

/-- Modelled from the spec: `bson::oid::ObjectId::parse_str` comes from the external
`bson` crate and is not under `src/`; the spec fixes its grammar as exactly 24
hexadecimal characters (either case), decoded pairwise into 12 bytes.  Any other
string yields the typed `InvalidIdentifier` failure; the function is total. -/
def ObjectId.parse_str (s : String) : Except OidError ObjectId :=
  if s.length = 24 then
    match hexDecode s.data with
    | some bs => Except.ok { bytes := bs }
    | none => Except.error OidError.invalidIdentifier
  else Except.error OidError.invalidIdentifier

/-- Embedding of `mongodb::error::Error`: either the locally synthesized custom
error wrapping an `ObjectId` parse failure, or an opaque store-side error. -/
inductive MongoError where
  | custom (e : OidError)
  | store (code : Nat)
deriving DecidableEq, Repr

/-- Embedding of `parse_object_id` (utils.rs): `ObjectId::parse_str(id)` with the
parse error wrapped by `mongodb::error::Error::custom`. -/
def parse_object_id (id : String) : Except MongoError ObjectId :=
  (ObjectId.parse_str id).mapError MongoError.custom

/-- The store's native identifier grammar: exactly 24 hexadecimal characters. -/
def isValidOidString (s : String) : Prop :=
  s.length = 24 ∧ ∀ c ∈ s.data, (hexDigitVal c).isSome

instance (s : String) : Decidable (isValidOidString s) := by
  unfold isValidOidString; infer_instance

/-! ## The driver collection handle and documents (traits.rs) -/

/-- A minimal BSON value model: the values this repository layer itself
constructs (sort directives and `_id` equality filters); caller-supplied
filter/update documents are passed through uninterpreted. -/
inductive BsonValue where
  | int (i : Int)
  | oid (o : ObjectId)
  | str (s : String)
deriving DecidableEq, Repr

/-- A BSON document: an ordered list of key-value pairs (the `doc!` macro). -/
def Document := List (String × BsonValue)

instance : DecidableEq Document := by
  unfold Document; infer_instance

/-- Embedding of `mongodb::options::FindOptions`, restricted to the fields this
repository sets: `skip : u64`, `limit : i64`, `sort : Document`. -/
structure FindOptions where
  skip : Option Nat
  limit : Option Int
  sort : Option Document

/-- Embedding of the driver's `UpdateResult` (`matched_count`, `modified_count`). -/
structure UpdateResult where
  matchedCount : Nat
  modifiedCount : Nat

/-- The abstract store boundary: a `mongodb::Collection<T>` handle, modelled by its
primitive operations as used by the `CollectionRepository` default methods under
verification.  `find` returns a cursor: the stream of `try_next` outcomes. -/
structure MongoCollection (T : Type) where
  countDocuments : Document → Except MongoError Nat
  find : Document → Option FindOptions → Except MongoError (List (Except MongoError T))
  updateOne : Document → Document → Except MongoError UpdateResult
  updateMany : Document → Document → Except MongoError UpdateResult

/-- The cursor-draining loop of `find_many`: `try_next` until exhaustion, pushing
documents in order; the first stream error aborts the whole call. -/
def drainCursor {T : Type} : List (Except MongoError T) → Except MongoError (List T)
  | [] => Except.ok []
  | Except.error e :: _ => Except.error e
  | Except.ok d :: rest => do
    let ds ← drainCursor rest
    pure (d :: ds)

/-- Embedding of `CollectionRepository::find_many`: run `collection.find` (with the
caller's options, when present) and drain the cursor into a vector. -/
def find_many {T : Type} (col : MongoCollection T) (filter : Document)
    (options : Option FindOptions) : Except MongoError (List T) := do
  let cursor ← col.find filter options
  drainCursor cursor

/-- The sort directive built inside `find_paginated`: `doc! { sort_by: sort_value }`
with `Asc → 1, Desc → -1` when `sort_by` is present, else `doc! { "_id": -1 }`. -/
def sort_doc_of (query : PaginatedQuery) : Document :=
  match query.sort_by with
  | some sort_by =>
    let sort_value : Int :=
      match query.sort_order with
      | SortOrder.Asc => 1
      | SortOrder.Desc => -1
    [(sort_by, BsonValue.int sort_value)]
  | none => [("_id", BsonValue.int (-1))]

/-- Round-to-nearest with ties broken to the even integer: the integer nearest
to `x`, preferring the even one when `x` lies exactly halfway between two. -/
def roundHalfEven (x : ℚ) : ℤ :=
  if x - ⌊x⌋ < 1 / 2 then ⌊x⌋
  else if 1 / 2 < x - ⌊x⌋ then ⌊x⌋ + 1
  else if ⌊x⌋ % 2 = 0 then ⌊x⌋ else ⌊x⌋ + 1

/-- Rounding of a nonnegative rational to the IEEE754 binary64 value grid, to
nearest with ties to even: at `q > 0` the grid spacing (unit in the last place)
is `2 ^ (e - 52)` for `e = Int.log 2 q`, so the scaled value `q / 2 ^ (e - 52)`
lies in `[2 ^ 52, 2 ^ 53)` and is rounded to the nearest integer mantissa.
For every value reachable in this repository's `total_pages` computation —
integers below `2 ^ 64` and quotients of their roundings, all of magnitude in
`[2 ^ (-64), 2 ^ 64]` or zero — this is exactly IEEE754 binary64 rounding: such
values are far from both the overflow threshold (near `2 ^ 1024`) and the
subnormal range (below `2 ^ (-1022)`). -/
def f64RoundNonneg (q : ℚ) : ℚ :=
  if q ≤ 0 then 0
  else (roundHalfEven (q / 2 ^ (Int.log 2 q - 52)) : ℚ) * 2 ^ (Int.log 2 q - 52)

/-- The Rust cast `v as u64` applied to an integer-valued `f64` (here: the
result of `.ceil()`): truncation with saturation — negative values clamp to
`0`, values at or above `2 ^ 64` clamp to `u64::MAX`. -/
def f64ToU64 (c : ℤ) : Nat :=
  if c < 0 then 0 else if (u64size : ℤ) ≤ c then u64size - 1 else c.toNat

/-- Embedding of `(total_count as f64 / page_size as f64).ceil() as u64` from
`find_paginated`: both `u64` operands are rounded to binary64
(`u64 → f64` is a rounding conversion), the quotient is the correctly rounded
(round-to-nearest-even) division of the rounded operands, `.ceil()` is exact
(the ceiling of a binary64 value of magnitude below `2 ^ 64` is itself
representable), and the final cast saturates.  When `page_size` is `0` the
division yields `+inf` (cast to `u64::MAX`) for a positive count and `NaN`
(cast to `0`) for a zero count. -/
def total_pages_calc (total_count page_size : Nat) : Nat :=
  if f64RoundNonneg page_size = 0 then
    (if f64RoundNonneg total_count = 0 then 0 else u64size - 1)
  else
    f64ToU64 (Int.ceil (f64RoundNonneg
      (f64RoundNonneg total_count / f64RoundNonneg page_size)))

/-- Embedding of `CollectionRepository::find_paginated`: count, build sort and find
options, fetch through `find_many`, compute `total_pages`, assemble the response. -/
def find_paginated {T : Type} (col : MongoCollection T) (filter : Document)
    (query : PaginatedQuery) : Except MongoError (PaginatedData T) := do
  let total_count ← col.countDocuments filter
  let sort_doc := sort_doc_of query
  let find_options : FindOptions :=
    { skip := some query.skip, limit := some query.limit, sort := some sort_doc }
  let items ← find_many col filter (some find_options)
  let total_pages := total_pages_calc total_count query.page_size
  pure { items := items
         total_count := total_count
         page := query.page
         page_size := query.page_size
         total_pages := total_pages }

/-- Embedding of `CollectionRepository::update_by_id`: decode the id, update by
`_id` equality, report `modified_count > 0`. -/
def update_by_id {T : Type} (col : MongoCollection T) (id : String)
    (update : Document) : Except MongoError Bool := do
  let oid ← parse_object_id id
  let result ← col.updateOne [("_id", BsonValue.oid oid)] update
  pure (decide (0 < result.modifiedCount))

/-- Embedding of `CollectionRepository::update_one`: report `modified_count > 0`. -/
def update_one {T : Type} (col : MongoCollection T) (filter update : Document) :
    Except MongoError Bool := do
  let result ← col.updateOne filter update
  pure (decide (0 < result.modifiedCount))

/-- Embedding of `CollectionRepository::update_many`: report `modified_count`. -/
def update_many {T : Type} (col : MongoCollection T) (filter update : Document) :
    Except MongoError Nat := do
  let result ← col.updateMany filter update
  pure result.modifiedCount

/-! ## Auxiliary definitions used by the statements and witnesses -/

/-- The value attached to the last entry of the raw mapping (in iteration order)
whose key normalizes to `name`; `none` when no key does.  Used to characterize
which binding wins in `parsed_filters`. -/
def lastFilterValue (name : String) : List (String × String) → Option String
  | [] => none
  | (k, v) :: rest =>
    match lastFilterValue name rest with
    | some w => some w
    | none => if parseFilterKey k = some name then some v else none

/-- A concrete driver collection handle used to exercise the repository
operations on closed inputs: 25 matching documents, a two-document cursor, an
update that matches one document but modifies none, and a bulk update that
matches five documents and modifies three. -/
def demoCollection : MongoCollection Nat :=
  { countDocuments := fun _ => Except.ok 25
    find := fun _ _ => Except.ok [Except.ok 1, Except.ok 2]
    updateOne := fun _ _ => Except.ok { matchedCount := 1, modifiedCount := 0 }
    updateMany := fun _ _ => Except.ok { matchedCount := 5, modifiedCount := 3 } }

/-- The `PaginatedQuery` with all defaults: page 1, page size 10, no sort field,
descending order, no search, no filters. -/
def demoQuery : PaginatedQuery :=
  { page := 1, page_size := 10, sort_by := none, sort_order := SortOrder.Desc
    search := none, filters := none }

/-- A `PaginatedQuery` with `page = 0`, constructible because the fields are
public and deserialization performs no validation. -/
def pageZeroQuery : PaginatedQuery :=
  { page := 0, page_size := 10, sort_by := none, sort_order := SortOrder.Desc
    search := none, filters := none }

/-- A driver collection whose count is `2 ^ 53 + 1` — one more than the largest
integer below which every `u64` is exactly representable in binary64 — with an
empty result cursor.  Used to exhibit the `total_pages` rounding deviation. -/
def bigCountCollection : MongoCollection Nat :=
  { countDocuments := fun _ => Except.ok (2 ^ 53 + 1)
    find := fun _ _ => Except.ok []
    updateOne := fun _ _ => Except.ok { matchedCount := 0, modifiedCount := 0 }
    updateMany := fun _ _ => Except.ok { matchedCount := 0, modifiedCount := 0 } }

/-- The query asking for page 1 with one document per page. -/
def onePageQuery : PaginatedQuery :=
  { page := 1, page_size := 1, sort_by := none, sort_order := SortOrder.Desc
    search := none, filters := none }

/-! ## Basic lemmas about the `Except` monad operations -/

theorem exBind_ok {E A B : Type} (a : A) (f : A → Except E B) :
    (Except.ok a >>= f : Except E B) = f a := rfl

theorem exBind_error {E A B : Type} (e : E) (f : A → Except E B) :
    (Except.error e >>= f : Except E B) = Except.error e := rfl

theorem exMap_ok {E A B : Type} (a : A) (f : A → B) :
    (f <$> Except.ok a : Except E B) = Except.ok (f a) := rfl

theorem exMap_error {E A B : Type} (e : E) (f : A → B) :
    (f <$> Except.error e : Except E B) = Except.error e := rfl

theorem exPure {E A : Type} (a : A) : (pure a : Except E A) = Except.ok a := rfl

/-! ## The `total_pages` computation -/

/-! ### The binary64 rounding model -/

theorem roundHalfEven_intCast (z : ℤ) : roundHalfEven (z : ℚ) = z := by
  unfold roundHalfEven
  rw [Int.floor_intCast]
  norm_num

theorem roundHalfEven_le (x : ℚ) (z : ℤ) (h : x ≤ (z : ℚ)) : roundHalfEven x ≤ z := by
  have hfl : ⌊x⌋ ≤ z := (Int.floor_mono h).trans_eq (Int.floor_intCast z)
  unfold roundHalfEven
  split_ifs with h1 h2 h3
  · exact hfl
  · by_contra hc
    push_neg at hc
    have hz : ⌊x⌋ = z := by omega
    have hx : x = (⌊x⌋ : ℚ) := le_antisymm (by rw [hz]; exact h) (Int.floor_le x)
    rw [← hx] at h2
    norm_num at h2
  · exact hfl
  · by_contra hc
    push_neg at hc
    have hz : ⌊x⌋ = z := by omega
    have hx : x = (⌊x⌋ : ℚ) := le_antisymm (by rw [hz]; exact h) (Int.floor_le x)
    rw [← hx] at h1
    norm_num at h1

theorem roundHalfEven_ge (x : ℚ) (z : ℤ) (h : (z : ℚ) ≤ x) : z ≤ roundHalfEven x := by
  have hfl : z ≤ ⌊x⌋ := Int.le_floor.mpr h
  unfold roundHalfEven
  split_ifs <;> omega

theorem roundHalfEven_le_add_half (x : ℚ) : (roundHalfEven x : ℚ) ≤ x + 1 / 2 := by
  have h1 := Int.floor_le x
  have h2 := Int.lt_floor_add_one x
  unfold roundHalfEven
  split_ifs with ha hb hc <;> push_cast <;> linarith

theorem roundHalfEven_ge_sub_half (x : ℚ) : x - 1 / 2 ≤ (roundHalfEven x : ℚ) := by
  have h1 := Int.floor_le x
  have h2 := Int.lt_floor_add_one x
  unfold roundHalfEven
  split_ifs with ha hb hc <;> push_cast <;> linarith

theorem f64RoundNonneg_zero : f64RoundNonneg 0 = 0 := by
  unfold f64RoundNonneg
  norm_num

theorem f64RoundNonneg_of_pos (q : ℚ) (hq : 0 < q) :
    f64RoundNonneg q
      = (roundHalfEven (q / 2 ^ (Int.log 2 q - 52)) : ℚ) * 2 ^ (Int.log 2 q - 52) := by
  unfold f64RoundNonneg
  rw [if_neg (not_le.mpr hq)]

theorem f64Round_le_grid (q : ℚ) (hq : 0 < q) (z : ℤ)
    (h : q ≤ (z : ℚ) * 2 ^ (Int.log 2 q - 52)) :
    f64RoundNonneg q ≤ (z : ℚ) * 2 ^ (Int.log 2 q - 52) := by
  rw [f64RoundNonneg_of_pos q hq]
  have hU : (0 : ℚ) < 2 ^ (Int.log 2 q - 52) := zpow_pos (by norm_num) _
  have hx : q / 2 ^ (Int.log 2 q - 52) ≤ (z : ℚ) := (div_le_iff₀ hU).mpr h
  exact mul_le_mul_of_nonneg_right
    (by exact_mod_cast roundHalfEven_le _ z hx) hU.le

theorem f64Round_ge_grid (q : ℚ) (hq : 0 < q) (z : ℤ)
    (h : (z : ℚ) * 2 ^ (Int.log 2 q - 52) ≤ q) :
    (z : ℚ) * 2 ^ (Int.log 2 q - 52) ≤ f64RoundNonneg q := by
  rw [f64RoundNonneg_of_pos q hq]
  have hU : (0 : ℚ) < 2 ^ (Int.log 2 q - 52) := zpow_pos (by norm_num) _
  have hx : (z : ℚ) ≤ q / 2 ^ (Int.log 2 q - 52) := (le_div_iff₀ hU).mpr h
  exact mul_le_mul_of_nonneg_right
    (by exact_mod_cast roundHalfEven_ge _ z hx) hU.le

theorem f64Round_le_add (q : ℚ) (hq : 0 < q) :
    f64RoundNonneg q ≤ q + 2 ^ (Int.log 2 q - 52) / 2 := by
  rw [f64RoundNonneg_of_pos q hq]
  have hU : (0 : ℚ) < 2 ^ (Int.log 2 q - 52) := zpow_pos (by norm_num) _
  have h := roundHalfEven_le_add_half (q / 2 ^ (Int.log 2 q - 52))
  have h2 := mul_le_mul_of_nonneg_right h hU.le
  have h3 : (q / 2 ^ (Int.log 2 q - 52) + 1 / 2) * 2 ^ (Int.log 2 q - 52)
      = q + 2 ^ (Int.log 2 q - 52) / 2 := by
    field_simp
    ring
  rw [h3] at h2
  exact h2

theorem f64Round_ge_sub (q : ℚ) (hq : 0 < q) :
    q - 2 ^ (Int.log 2 q - 52) / 2 ≤ f64RoundNonneg q := by
  rw [f64RoundNonneg_of_pos q hq]
  have hU : (0 : ℚ) < 2 ^ (Int.log 2 q - 52) := zpow_pos (by norm_num) _
  have h := roundHalfEven_ge_sub_half (q / 2 ^ (Int.log 2 q - 52))
  have h2 := mul_le_mul_of_nonneg_right h hU.le
  have h3 : (q / 2 ^ (Int.log 2 q - 52) - 1 / 2) * 2 ^ (Int.log 2 q - 52)
      = q - 2 ^ (Int.log 2 q - 52) / 2 := by
    field_simp
    ring
  rw [h3] at h2
  exact h2

theorem f64Round_grid_exact (q : ℚ) (hq : 0 < q) (z : ℤ)
    (h : q = (z : ℚ) * 2 ^ (Int.log 2 q - 52)) : f64RoundNonneg q = q := by
  refine le_antisymm ?_ ?_
  · calc f64RoundNonneg q ≤ (z : ℚ) * 2 ^ (Int.log 2 q - 52) :=
      f64Round_le_grid q hq z h.le
    _ = q := h.symm
  · calc q = (z : ℚ) * 2 ^ (Int.log 2 q - 52) := h
    _ ≤ f64RoundNonneg q := f64Round_ge_grid q hq z h.ge

theorem qpow_split (E : ℤ) :
    (2 : ℚ) ^ E = ((2 : ℚ) ^ (52 : ℕ)) * 2 ^ (E - 52) := by
  rw [← zpow_natCast (2 : ℚ) 52, ← zpow_add₀ (by norm_num : (2 : ℚ) ≠ 0)]
  congr 1
  omega

theorem f64Round_ge_zpow_log (q : ℚ) (hq : 0 < q) :
    (2 : ℚ) ^ Int.log 2 q ≤ f64RoundNonneg q := by
  have h := Int.zpow_log_le_self (b := 2) (by norm_num) hq
  have h2 : ((2 ^ 52 : ℤ) : ℚ) * 2 ^ (Int.log 2 q - 52) ≤ q := by
    calc ((2 ^ 52 : ℤ) : ℚ) * 2 ^ (Int.log 2 q - 52)
        = (2 : ℚ) ^ Int.log 2 q := by
          push_cast
          rw [qpow_split (Int.log 2 q)]
          norm_num
      _ ≤ q := by exact_mod_cast h
  calc (2 : ℚ) ^ Int.log 2 q
      = ((2 ^ 52 : ℤ) : ℚ) * 2 ^ (Int.log 2 q - 52) := by
        push_cast
        rw [qpow_split (Int.log 2 q)]
        norm_num
    _ ≤ f64RoundNonneg q := f64Round_ge_grid q hq (2 ^ 52) h2

theorem f64Round_pos (q : ℚ) (hq : 0 < q) : 0 < f64RoundNonneg q :=
  lt_of_lt_of_le (zpow_pos (by norm_num) _) (f64Round_ge_zpow_log q hq)

theorem f64Round_int (z : ℤ) (h1 : 0 < z) (h53 : z ≤ 2 ^ 53) :
    f64RoundNonneg (z : ℚ) = z := by
  have hq : (0 : ℚ) < (z : ℚ) := by exact_mod_cast h1
  have hElt : Int.log 2 (z : ℚ) < 54 := by
    have hlt : (z : ℚ) < (2 : ℚ) ^ (54 : ℤ) := by
      have hle : (z : ℚ) ≤ ((2 ^ 53 : ℤ) : ℚ) := by exact_mod_cast h53
      have : ((2 ^ 53 : ℤ) : ℚ) < (2 : ℚ) ^ (54 : ℤ) := by norm_num
      linarith
    exact (Int.lt_zpow_iff_log_lt (by norm_num) hq).mp hlt
  rcases lt_or_ge (Int.log 2 (z : ℚ)) 53 with hE52 | hE53
  · have hk : 0 ≤ 52 - Int.log 2 (z : ℚ) := by omega
    apply f64Round_grid_exact _ hq (z * 2 ^ (52 - Int.log 2 (z : ℚ)).toNat)
    have hsplit : ((2 : ℚ) ^ (52 - Int.log 2 (z : ℚ)).toNat) * 2 ^ (Int.log 2 (z : ℚ) - 52)
        = 1 := by
      rw [← zpow_natCast (2 : ℚ) (52 - Int.log 2 (z : ℚ)).toNat,
        ← zpow_add₀ (by norm_num : (2 : ℚ) ≠ 0), Int.toNat_of_nonneg hk]
      norm_num
    push_cast
    rw [mul_assoc, hsplit, mul_one]
  · have hE : Int.log 2 (z : ℚ) = 53 := by omega
    have hz : z = 2 ^ 53 := by
      have hle := Int.zpow_log_le_self (b := 2) (by norm_num) hq
      rw [hE] at hle
      have : ((2 ^ 53 : ℤ) : ℚ) ≤ (z : ℚ) := by
        calc ((2 ^ 53 : ℤ) : ℚ) = (2 : ℚ) ^ (53 : ℤ) := by norm_num
          _ ≤ (z : ℚ) := hle
      have hzz : (2 ^ 53 : ℤ) ≤ z := by exact_mod_cast this
      omega
    subst hz
    apply f64Round_grid_exact _ hq (2 ^ 52)
    rw [hE]
    norm_num

theorem f64Round_nat (n : ℕ) (h : n ≤ 2 ^ 53) : f64RoundNonneg (n : ℚ) = n := by
  rcases Nat.eq_zero_or_pos n with h0 | h1
  · subst h0
    simpa using f64RoundNonneg_zero
  · have := f64Round_int (n : ℤ) (by exact_mod_cast h1) (by exact_mod_cast h)
    simpa using this

theorem intCeil_natDiv_toNat (tc ps : Nat) (hps : 1 ≤ ps) :
    (Int.ceil ((tc : ℚ) / (ps : ℚ))).toNat = (tc + ps - 1) / ps := by
  rw [Int.ceil_toNat]
  rcases Nat.eq_zero_or_pos tc with htc | htc
  · subst htc
    simp
    exact (Nat.div_eq_of_lt (by omega)).symm
  · have hpsQ : (0 : ℚ) < (ps : ℚ) := by positivity
    set n : Nat := (tc + ps - 1) / ps with hn
    have key1 : tc ≤ n * ps := by
      have hmod := Nat.div_add_mod (tc + ps - 1) ps
      have hlt : (tc + ps - 1) % ps < ps := Nat.mod_lt _ (by omega)
      rw [hn, Nat.mul_comm]
      generalize hP : ps * ((tc + ps - 1) / ps) = P at hmod ⊢
      generalize hR : (tc + ps - 1) % ps = r at hmod hlt
      omega
    have key2 : (n - 1) * ps < tc := by
      have hmod := Nat.div_add_mod (tc + ps - 1) ps
      have hlt : (tc + ps - 1) % ps < ps := Nat.mod_lt _ (by omega)
      rw [hn, Nat.sub_mul, one_mul, Nat.mul_comm]
      generalize hP : ps * ((tc + ps - 1) / ps) = P at hmod ⊢
      generalize hR : (tc + ps - 1) % ps = r at hmod hlt
      omega
    have hn0 : n ≠ 0 := by
      intro h
      rw [h, Nat.zero_mul] at key1
      omega
    rw [Nat.ceil_eq_iff hn0]
    constructor
    · rw [lt_div_iff₀ hpsQ]
      exact_mod_cast key2
    · rw [div_le_iff₀ hpsQ]
      exact_mod_cast key1

theorem total_pages_calc_eq (tc ps : Nat) (htc : tc < 2 ^ 53) (hps : 1 ≤ ps) :
    total_pages_calc tc ps = (tc + ps - 1) / ps := by
  have hps0 : 0 < ps := hps
  have hpsQ : (0 : ℚ) < (ps : ℚ) := by positivity
  have hbpos : 0 < f64RoundNonneg ps := f64Round_pos _ hpsQ
  unfold total_pages_calc
  rw [if_neg hbpos.ne']
  have ha : f64RoundNonneg tc = tc := f64Round_nat tc (by omega)
  rw [ha]
  rcases Nat.eq_zero_or_pos tc with h0 | htc1
  · subst h0
    rw [show ((0 : ℕ) : ℚ) / f64RoundNonneg ps = 0 by simp]
    rw [f64RoundNonneg_zero, Int.ceil_zero]
    rw [show f64ToU64 0 = 0 from rfl]
    exact (Nat.div_eq_of_lt (by omega)).symm
  · rcases lt_or_ge ps (2 ^ 53) with hps53 | hps53
    · -- page_size below 2^53: both operands are exact
      have hb : f64RoundNonneg ps = ps := f64Round_nat ps (by omega)
      rw [hb]
      have hq0pos' : 0 < (tc : ℚ) / (ps : ℚ) := by positivity
      set q0 : ℚ := (tc : ℚ) / (ps : ℚ) with hq0
      clear_value q0
      have hq0pos : 0 < q0 := hq0pos'
      set c : ℤ := Int.ceil q0 with hc
      clear_value c
      have hc1 : 1 ≤ c := by
        rw [hc]
        exact Int.ceil_pos.mpr hq0pos
      have hq0tc : q0 ≤ (tc : ℚ) := by
        rw [hq0]
        apply div_le_self (by positivity)
        exact_mod_cast hps
      have hctc : c ≤ tc := by
        rw [hc]
        calc ⌈q0⌉ ≤ ⌈(tc : ℚ)⌉ := Int.ceil_le_ceil hq0tc
          _ = tc := Int.ceil_natCast tc
      have hE52 : Int.log 2 q0 ≤ 52 := by
        have hlt : q0 < (2 : ℚ) ^ (53 : ℤ) := by
          have h2 : (tc : ℚ) < ((2 ^ 53 : ℕ) : ℚ) := by exact_mod_cast htc
          have h53Q : ((2 : ℚ)) ^ (53 : ℤ) = ((2 ^ 53 : ℕ) : ℚ) := by norm_num
          rw [h53Q]
          linarith
        have := (Int.lt_zpow_iff_log_lt (b := 2) (by norm_num) hq0pos).mp hlt
        omega
      have hcle : q0 ≤ (c : ℚ) := by
        rw [hc]
        exact Int.le_ceil q0
      have key : Int.ceil (f64RoundNonneg q0) = c := by
        rcases eq_or_lt_of_le hcle with heq | hlt
        · have hr : f64RoundNonneg q0 = q0 := by
            rw [heq]
            exact f64Round_int c hc1 (by omega)
          rw [hr, heq, Int.ceil_intCast]
        · have hlow : (c : ℚ) - 1 < q0 := by
            have h1 : (c : ℚ) < q0 + 1 := by
              rw [hc]
              exact Int.ceil_lt_add_one q0
            linarith
          rw [Int.ceil_eq_iff]
          refine ⟨?_, ?_⟩
          · -- the round-off is smaller than the gap down to c - 1
            have hZ : (c - 1) * (ps : ℤ) < tc := by
              have hq : ((c : ℚ) - 1) * (ps : ℚ) < (tc : ℚ) := by
                rw [← lt_div_iff₀ hpsQ, ← hq0]
                exact hlow
              exact_mod_cast hq
            have hstep : (1 : ℚ) / ps ≤ q0 - ((c : ℚ) - 1) := by
              have hZ1 : (c - 1) * (ps : ℤ) + 1 ≤ tc := hZ
              have hQ1 : ((c : ℚ) - 1) * ps + 1 ≤ tc := by exact_mod_cast hZ1
              have hrw : q0 - ((c : ℚ) - 1) = ((tc : ℚ) - ((c : ℚ) - 1) * ps) / ps := by
                rw [hq0]
                field_simp
                ring
              rw [hrw]
              gcongr
              linarith
            have hU : (2 : ℚ) ^ (Int.log 2 q0 - 52) < 2 / ps := by
              have hE := Int.zpow_log_le_self (b := 2) (by norm_num) hq0pos
              have e1 : (2 : ℚ) ^ (Int.log 2 q0 - 52)
                  = (2 : ℚ) ^ Int.log 2 q0 / 2 ^ (52 : ℕ) := by
                rw [eq_div_iff (by positivity : ((2 : ℚ) ^ (52 : ℕ)) ≠ 0),
                  ← zpow_natCast (2 : ℚ) 52,
                  ← zpow_add₀ (by norm_num : (2 : ℚ) ≠ 0)]
                congr 1
                omega
              have hq0lt : q0 < ((2 ^ 53 : ℕ) : ℚ) / ps := by
                rw [hq0]
                gcongr
              have e2 : (2 : ℚ) ^ Int.log 2 q0 / 2 ^ (52 : ℕ) ≤ q0 / 2 ^ (52 : ℕ) := by
                gcongr
                exact_mod_cast hE
              have e3 : q0 / 2 ^ (52 : ℕ) < (((2 ^ 53 : ℕ) : ℚ) / ps) / 2 ^ (52 : ℕ) := by
                gcongr
              have e4 : (((2 ^ 53 : ℕ) : ℚ) / ps) / 2 ^ (52 : ℕ) = 2 / ps := by
                rw [div_div]
                rw [div_eq_div_iff (by positivity) hpsQ.ne']
                push_cast
                ring
              rw [e1]
              linarith
            have hglb := f64Round_ge_sub q0 hq0pos
            have h12a : (2 : ℚ) ^ (Int.log 2 q0 - 52) / 2 < (2 / (ps : ℚ)) / 2 := by
              gcongr
            have h12b : (2 / (ps : ℚ)) / 2 = 1 / ps := by ring
            linarith
          · -- c itself is on the rounding grid, so rounding cannot cross it
            have hk : 0 ≤ 52 - Int.log 2 q0 := by omega
            have hcgrid : ((c * 2 ^ (52 - Int.log 2 q0).toNat : ℤ) : ℚ)
                * 2 ^ (Int.log 2 q0 - 52) = c := by
              push_cast
              rw [mul_assoc]
              have hone : ((2 : ℚ) ^ (52 - Int.log 2 q0).toNat)
                  * 2 ^ (Int.log 2 q0 - 52) = 1 := by
                rw [← zpow_natCast (2 : ℚ) (52 - Int.log 2 q0).toNat,
                  ← zpow_add₀ (by norm_num : (2 : ℚ) ≠ 0), Int.toNat_of_nonneg hk]
                norm_num
              rw [hone, mul_one]
            have hup := f64Round_le_grid q0 hq0pos (c * 2 ^ (52 - Int.log 2 q0).toNat)
              (by rw [hcgrid]; exact hlt.le)
            rw [hcgrid] at hup
            exact hup
      rw [key]
      have hc64 : c < (u64size : ℤ) := by
        have h64 : (u64size : ℤ) = 2 ^ 64 := by norm_num [u64size]
        omega
      unfold f64ToU64
      rw [if_neg (by omega), if_neg (not_le.mpr hc64), hc, hq0]
      exact intCeil_natDiv_toNat tc ps hps
    · -- page_size at least 2^53: the quotient is below one and rounds below one
      have htcps : tc ≤ ps := by omega
      have h2_53 : (2 : ℚ) ^ (53 : ℤ) ≤ f64RoundNonneg ps := by
        have hle : (2 : ℚ) ^ (53 : ℤ) ≤ (ps : ℚ) := by
          have hN : ((2 ^ 53 : ℕ) : ℚ) ≤ (ps : ℚ) := by exact_mod_cast hps53
          have h53Q : ((2 : ℚ)) ^ (53 : ℤ) = ((2 ^ 53 : ℕ) : ℚ) := by norm_num
          rw [h53Q]
          exact hN
        have hEb : 53 ≤ Int.log 2 (ps : ℚ) :=
          (Int.zpow_le_iff_le_log (b := 2) (by norm_num) hpsQ).mp hle
        calc (2 : ℚ) ^ (53 : ℤ) ≤ (2 : ℚ) ^ Int.log 2 (ps : ℚ) :=
            (zpow_le_zpow_iff_right₀ (by norm_num)).mpr hEb
          _ ≤ f64RoundNonneg ps := f64Round_ge_zpow_log _ hpsQ
      set b := f64RoundNonneg (ps : ℚ) with hbdef
      clear_value b
      set q0 : ℚ := (tc : ℚ) / b with hq0
      clear_value q0
      have hq0pos : 0 < q0 := by
        rw [hq0]
        exact div_pos (by exact_mod_cast htc1) hbpos
      have hval : ((2 : ℚ) ^ (-53 : ℤ)) * (2 : ℚ) ^ (53 : ℤ) = 1 := by
        rw [← zpow_add₀ (by norm_num : (2 : ℚ) ≠ 0)]
        norm_num
      have hq0le : q0 ≤ 1 - (2 : ℚ) ^ (-53 : ℤ) := by
        have htcQ : (tc : ℚ) ≤ (2 : ℚ) ^ (53 : ℤ) - 1 := by
          have h1 : tc ≤ 2 ^ 53 - 1 := by omega
          have h2 : (tc : ℚ) ≤ ((2 ^ 53 - 1 : ℕ) : ℚ) := by exact_mod_cast h1
          have h3 : ((2 ^ 53 - 1 : ℕ) : ℚ) = (2 : ℚ) ^ (53 : ℤ) - 1 := by
            push_cast
            norm_num
          linarith
        rw [hq0, div_le_iff₀ hbpos]
        have hcoef : (0 : ℚ) ≤ 1 - 2 ^ (-53 : ℤ) := by
          have h1 : ((2 : ℚ)) ^ (-53 : ℤ) ≤ 1 := by
            rw [show (1 : ℚ) = (2 : ℚ) ^ (0 : ℤ) by norm_num]
            exact (zpow_le_zpow_iff_right₀ (by norm_num)).mpr (by omega)
          linarith
        have hmul : (1 - (2 : ℚ) ^ (-53 : ℤ)) * (2 : ℚ) ^ (53 : ℤ)
            ≤ (1 - 2 ^ (-53 : ℤ)) * b := mul_le_mul_of_nonneg_left h2_53 hcoef
        have hexp : (1 - (2 : ℚ) ^ (-53 : ℤ)) * (2 : ℚ) ^ (53 : ℤ)
            = (2 : ℚ) ^ (53 : ℤ) - 1 := by
          rw [sub_mul, one_mul, hval]
        linarith
      have hEq : Int.log 2 q0 ≤ -1 := by
        have hpos : (0 : ℚ) < 2 ^ (-53 : ℤ) := zpow_pos (by norm_num) _
        have hlt1 : q0 < (2 : ℚ) ^ (0 : ℤ) := by
          have h1 : ((2 : ℚ)) ^ (0 : ℤ) = 1 := by norm_num
          linarith
        have := (Int.lt_zpow_iff_log_lt (b := 2) (by norm_num) hq0pos).mp hlt1
        omega
      have hUle : (2 : ℚ) ^ (Int.log 2 q0 - 52) ≤ 2 ^ (-53 : ℤ) :=
        (zpow_le_zpow_iff_right₀ (by norm_num)).mpr (by omega)
      have hflub : f64RoundNonneg q0 < 1 := by
        have h1 := f64Round_le_add q0 hq0pos
        have hpos : (0 : ℚ) < 2 ^ (-53 : ℤ) := zpow_pos (by norm_num) _
        linarith
      have hflpos : 0 < f64RoundNonneg q0 := f64Round_pos _ hq0pos
      have hceil : Int.ceil (f64RoundNonneg q0) = 1 := by
        rw [Int.ceil_eq_iff]
        refine ⟨by push_cast; linarith, by push_cast; linarith⟩
      rw [hceil]
      rw [show f64ToU64 1 = 1 from rfl]
      exact (Nat.div_eq_of_lt_le (by omega) (by omega)).symm

theorem f64Round_pow53_add_one :
    f64RoundNonneg (((2 ^ 53 + 1 : ℕ) : ℚ)) = ((2 ^ 53 : ℕ) : ℚ) := by
  have hq : (0 : ℚ) < ((2 ^ 53 + 1 : ℕ) : ℚ) := by positivity
  have hlog : Int.log 2 (((2 ^ 53 + 1 : ℕ) : ℚ)) = 53 := by
    have h1 : (2 : ℚ) ^ (53 : ℤ) ≤ ((2 ^ 53 + 1 : ℕ) : ℚ) := by
      push_cast
      norm_num
    have h2 : ((2 ^ 53 + 1 : ℕ) : ℚ) < (2 : ℚ) ^ (54 : ℤ) := by
      push_cast
      norm_num
    have l1 := (Int.zpow_le_iff_le_log (b := 2) (by norm_num) hq).mp h1
    have l2 := (Int.lt_zpow_iff_log_lt (b := 2) (by norm_num) hq).mp h2
    omega
  rw [f64RoundNonneg_of_pos _ hq, hlog]
  have hU : ((2 : ℚ)) ^ (53 - 52 : ℤ) = 2 := by norm_num
  rw [hU]
  have hfl : ⌊((2 ^ 53 + 1 : ℕ) : ℚ) / 2⌋ = 2 ^ 52 := by
    rw [Int.floor_eq_iff]
    constructor
    · push_cast
      norm_num
    · push_cast
      norm_num
  unfold roundHalfEven
  rw [hfl]
  have hr : ((2 ^ 53 + 1 : ℕ) : ℚ) / 2 - ((2 ^ 52 : ℤ) : ℚ) = 1 / 2 := by
    push_cast
    norm_num
  rw [hr]
  norm_num

theorem total_pages_calc_big : total_pages_calc (2 ^ 53 + 1) 1 = 2 ^ 53 := by
  unfold total_pages_calc
  have hb : f64RoundNonneg ((1 : ℕ) : ℚ) = 1 := by
    have := f64Round_nat 1 (by norm_num)
    simpa using this
  rw [hb, if_neg one_ne_zero]
  rw [f64Round_pow53_add_one]
  rw [div_one]
  have hfix : f64RoundNonneg ((2 ^ 53 : ℕ) : ℚ) = ((2 ^ 53 : ℕ) : ℚ) :=
    f64Round_nat (2 ^ 53) le_rfl
  rw [hfix]
  rw [Int.ceil_natCast]
  unfold f64ToU64
  rw [if_neg (by norm_num), if_neg (by norm_num [u64size])]
  simp

/-! ## Claim C2 (corrected) -/

/-- C2, counterexample: the claim "for every `PaginatedQuery` with `page ≥ 1` and
`page_size > 0`, `skip()` returns `(page - 1) * page_size` and `limit()` returns
`page_size`" fails on well-formed 64-bit inputs: at `page = 1`,
`page_size = 2 ^ 63` the cast `page_size as i64` is negative, and at
`page = 2 ^ 63 + 1`, `page_size = 2` the product `(page - 1) * page_size` wraps
to `0`. -/
theorem C2_counterexample :
    (PaginatedQuery.WF ⟨1, 2 ^ 63, none, SortOrder.Desc, none, none⟩ ∧
      ¬ PaginatedQuery.limit ⟨1, 2 ^ 63, none, SortOrder.Desc, none, none⟩
        = ((2 ^ 63 : Nat) : Int)) ∧
    (PaginatedQuery.WF ⟨2 ^ 63 + 1, 2, none, SortOrder.Desc, none, none⟩ ∧
      ¬ PaginatedQuery.skip ⟨2 ^ 63 + 1, 2, none, SortOrder.Desc, none, none⟩
        = (2 ^ 63 + 1 - 1) * 2) := by
  constructor
  · constructor
    · decide
    · intro h
      simp [PaginatedQuery.limit, u64AsI64, u64size] at h
  · constructor
    · decide
    · intro h
      rw [PaginatedQuery.skip] at h
      norm_num [u64size] at h

/-- C2, amended: for every well-formed `PaginatedQuery` with `page ≥ 1`,
`page_size > 0`, a product `(page - 1) * page_size` that fits in a `u64`, and a
`page_size` that fits in an `i64`, `skip()` returns `(page - 1) * page_size` and
`limit()` returns `page_size`; in particular `page = 1`, `page_size = 10` gives
`skip() = 0` and `limit() = 10`. -/
theorem C2_skip_limit :
    (∀ q : PaginatedQuery, q.WF → 1 ≤ q.page → 0 < q.page_size →
      (q.page - 1) * q.page_size < u64size → q.page_size < 2 ^ 63 →
      q.skip = (q.page - 1) * q.page_size ∧ q.limit = (q.page_size : Int)) ∧
    PaginatedQuery.skip demoQuery = 0 ∧ PaginatedQuery.limit demoQuery = 10 := by
  refine ⟨?_, by decide, by decide⟩
  intro q hwf hpage hsize hprod hlim
  obtain ⟨hp64, hps64⟩ := hwf
  constructor
  · rw [PaginatedQuery.skip]
    have h1 : q.page + u64size - 1 = (q.page - 1) + u64size := by omega
    rw [h1, Nat.add_mod_right, Nat.mod_eq_of_lt (by omega : q.page - 1 < u64size),
      Nat.mod_eq_of_lt hprod]
  · rw [PaginatedQuery.limit, u64AsI64, if_pos hlim]

/-- C2, witness: the amended theorem applied at the all-defaults query. -/
theorem C2_skip_limit_witness :
    PaginatedQuery.skip demoQuery = (demoQuery.page - 1) * demoQuery.page_size ∧
    PaginatedQuery.limit demoQuery = (demoQuery.page_size : Int) :=
  C2_skip_limit.1 demoQuery (by decide) (by decide) (by decide) (by decide) (by decide)

/-- Unfolding of `find_paginated` into the explicit chain of store calls. -/
theorem find_paginated_eq {T : Type} (col : MongoCollection T) (filter : Document)
    (q : PaginatedQuery) :
    find_paginated col filter q =
      col.countDocuments filter >>= fun n =>
        find_many col filter (some ⟨some q.skip, some q.limit, some (sort_doc_of q)⟩)
          >>= fun items =>
            Except.ok ⟨items, n, q.page, q.page_size, total_pages_calc n q.page_size⟩ :=
  rfl

/-! ## Claim C3 (corrected) -/

/-- C3, counterexample: the claim fails at `total_count = 2 ^ 53 + 1`,
`page_size = 1` — the `u64 → f64` conversion rounds the count (ties to even)
down to `2 ^ 53`, so the program computes `total_pages = 2 ^ 53` where the
exact ceiling is `2 ^ 53 + 1`. -/
theorem C3_counterexample :
    ¬ total_pages_calc (2 ^ 53 + 1) 1 = ((2 ^ 53 + 1) + 1 - 1) / 1 := by
  rw [total_pages_calc_big]
  decide

/-- C3, amended: for every `total_count` below `2 ^ 53` and every
`page_size ≥ 1`, the `total_pages` expression computed by `find_paginated`
equals the ceiling of `total_count` divided by `page_size` (the natural-number
ceiling division `(total_count + page_size - 1) / page_size`);
`total_count = 0` gives `0`, `25 / 10` gives `3`, `20 / 10` gives `2`; and
every successful `find_paginated` response carries exactly the computed
value. -/
theorem C3_total_pages :
    (∀ tc ps : Nat, tc < 2 ^ 53 → 1 ≤ ps →
      total_pages_calc tc ps = (tc + ps - 1) / ps) ∧
    (∀ ps : Nat, 1 ≤ ps → total_pages_calc 0 ps = 0) ∧
    total_pages_calc 25 10 = 3 ∧ total_pages_calc 20 10 = 2 ∧
    (∀ (T : Type) (col : MongoCollection T) (filter : Document) (q : PaginatedQuery)
      (d : PaginatedData T), find_paginated col filter q = Except.ok d →
      d.total_pages = total_pages_calc d.total_count q.page_size) := by
  refine ⟨total_pages_calc_eq, ?_, ?_, ?_, ?_⟩
  · intro ps hps
    rw [total_pages_calc_eq 0 ps (by norm_num) hps]
    exact Nat.div_eq_of_lt (by omega)
  · rw [total_pages_calc_eq 25 10 (by norm_num) (by omega)]
  · rw [total_pages_calc_eq 20 10 (by norm_num) (by omega)]
  · intro T col filter q d h
    rw [find_paginated_eq] at h
    cases hc : col.countDocuments filter with
    | error e => rw [hc, exBind_error] at h; exact absurd h (by simp)
    | ok n =>
      rw [hc, exBind_ok] at h
      cases hf : find_many col filter (some ⟨some q.skip, some q.limit,
          some (sort_doc_of q)⟩) with
      | error e => rw [hf, exBind_error] at h; exact absurd h (by simp)
      | ok items =>
        rw [hf, exBind_ok] at h
        cases h
        rfl

/-- C3, witness: the general ceiling identity applied at `total_count = 25`,
`page_size = 10`. -/
theorem C3_total_pages_witness : total_pages_calc 25 10 = (25 + 10 - 1) / 10 :=
  C3_total_pages.1 25 10 (by norm_num) (by omega)

/-! ## Claim C10 -/

/-- C10: `skip` computes `(page - 1) * page_size` with unchecked `u64`
arithmetic: the subtraction avoids underflow exactly when `page ≥ 1`; a query
with `page = 0` is constructible (no validation anywhere); and for such a query
the wrapped (release-mode) result is `(2 ^ 64 - 1) * page_size % 2 ^ 64` — at
`page_size = 10`, `2 ^ 64 - 10`. -/
theorem C10_skip_underflow :
    (∀ q : PaginatedQuery, ¬ u64SubUnderflows q.page 1 ↔ 1 ≤ q.page) ∧
    (∃ q : PaginatedQuery, q.page = 0) ∧
    (∀ q : PaginatedQuery, q.page = 0 →
      u64SubUnderflows q.page 1 ∧ q.skip = (u64size - 1) * q.page_size % u64size) ∧
    PaginatedQuery.skip pageZeroQuery = u64size - 10 := by
  refine ⟨?_, ⟨pageZeroQuery, rfl⟩, ?_, by decide⟩
  · intro q
    unfold u64SubUnderflows
    omega
  · intro q hq
    refine ⟨by unfold u64SubUnderflows; omega, ?_⟩
    rw [PaginatedQuery.skip, hq]
    have h1 : 0 + u64size - 1 = u64size - 1 := by omega
    rw [h1, Nat.mod_eq_of_lt (show u64size - 1 < u64size by norm_num [u64size])]

/-- C10, witness: the underflow clause applied at the concrete `page = 0` query. -/
theorem C10_skip_underflow_witness :
    u64SubUnderflows pageZeroQuery.page 1 ∧
    PaginatedQuery.skip pageZeroQuery = (u64size - 1) * pageZeroQuery.page_size % u64size :=
  C10_skip_underflow.2.2.1 pageZeroQuery rfl

/-! ## Claim C1 (corrected) -/

/-- C1, counterexample: the claim's `total_pages = ceil(total_count /
page_size)` conjunct fails — on a store counting `2 ^ 53 + 1` documents with
`page_size = 1`, `find_paginated` returns `total_pages = 2 ^ 53` (the count is
rounded by the `u64 → f64` conversion) where the exact ceiling is
`2 ^ 53 + 1`. -/
theorem C1_counterexample :
    find_paginated bigCountCollection [] onePageQuery
      = Except.ok ⟨[], 2 ^ 53 + 1, 1, 1, 2 ^ 53⟩ ∧
    (2 ^ 53 : Nat) ≠ ((2 ^ 53 + 1) + 1 - 1) / 1 := by
  refine ⟨?_, by decide⟩
  rw [find_paginated_eq]
  rw [show bigCountCollection.countDocuments [] = Except.ok (2 ^ 53 + 1) from rfl,
    exBind_ok]
  rw [show find_many bigCountCollection [] (some ⟨some onePageQuery.skip,
      some onePageQuery.limit, some (sort_doc_of onePageQuery)⟩)
    = Except.ok ([] : List Nat) from rfl, exBind_ok]
  rw [show onePageQuery.page_size = 1 from rfl, total_pages_calc_big]
  rfl

/-- C1, amended: `find_paginated` counts the documents matching the filter,
builds the sort directive (`sort_by` with `Asc → 1` / `Desc → -1`, defaulting
to descending `_id`), fetches items through `find_many` with options
`skip = skip()`, `limit = limit()` and that sort, and returns a `PaginatedData`
holding exactly those items, that count, the query's page and page size, and
the `f64`-computed `total_pages` — which equals the ceiling of
`total_count / page_size` whenever `page_size ≥ 1` and `total_count` is below
`2 ^ 53`. -/
theorem C1_find_paginated :
    ∀ (T : Type) (col : MongoCollection T) (filter : Document) (q : PaginatedQuery)
      (n : Nat) (items : List T),
      col.countDocuments filter = Except.ok n →
      find_many col filter (some ⟨some q.skip, some q.limit, some (sort_doc_of q)⟩)
        = Except.ok items →
      find_paginated col filter q
          = Except.ok ⟨items, n, q.page, q.page_size, total_pages_calc n q.page_size⟩ ∧
        (1 ≤ q.page_size → n < 2 ^ 53 →
          total_pages_calc n q.page_size = (n + q.page_size - 1) / q.page_size) ∧
        (∀ s, q.sort_by = some s → q.sort_order = SortOrder.Asc →
          sort_doc_of q = [(s, BsonValue.int 1)]) ∧
        (∀ s, q.sort_by = some s → q.sort_order = SortOrder.Desc →
          sort_doc_of q = [(s, BsonValue.int (-1))]) ∧
        (q.sort_by = none → sort_doc_of q = [("_id", BsonValue.int (-1))]) := by
  intro T col filter q n items hc hf
  refine ⟨?_, fun h1 h2 => total_pages_calc_eq n q.page_size h2 h1, ?_, ?_, ?_⟩
  · rw [find_paginated_eq, hc, exBind_ok, hf, exBind_ok]
  · intro s hs ho
    rw [sort_doc_of, hs, ho]
  · intro s hs ho
    rw [sort_doc_of, hs, ho]
  · intro hs
    rw [sort_doc_of, hs]

/-- C1, witness: `find_paginated` on the demo collection with the all-defaults
query returns the two cursor documents, the count 25, page 1, page size 10,
and three total pages. -/
theorem C1_find_paginated_witness :
    find_paginated demoCollection [] demoQuery = Except.ok ⟨[1, 2], 25, 1, 10, 3⟩ := by
  have h := C1_find_paginated Nat demoCollection [] demoQuery 25 [1, 2] rfl rfl
  have h2 : total_pages_calc 25 demoQuery.page_size = 3 := by
    rw [h.2.1 (by decide) (by norm_num)]
    decide
  have h1 := h.1
  rw [h2] at h1
  exact h1

/-! ## Claim C9 -/

/-- C9: `update_one` and `update_by_id` return `true` exactly when the store
reports `modified_count > 0` — a matched-but-unmodified document yields
`false` — and `update_many` returns the store's `modified_count`. -/
theorem C9_update_modified :
    ∀ (T : Type) (col : MongoCollection T) (filter update : Document) (r : UpdateResult),
      (col.updateOne filter update = Except.ok r →
        update_one col filter update = Except.ok (decide (0 < r.modifiedCount)) ∧
        (0 < r.matchedCount → r.modifiedCount = 0 →
          update_one col filter update = Except.ok false)) ∧
      (col.updateMany filter update = Except.ok r →
        update_many col filter update = Except.ok r.modifiedCount) ∧
      (∀ (id : String) (oid : ObjectId), parse_object_id id = Except.ok oid →
        col.updateOne [("_id", BsonValue.oid oid)] update = Except.ok r →
        update_by_id col id update = Except.ok (decide (0 < r.modifiedCount))) := by
  intro T col filter update r
  refine ⟨fun h => ⟨?_, fun _ hm0 => ?_⟩, fun h => ?_, fun id oid hid h => ?_⟩
  · rw [update_one, h, exBind_ok, exPure]
  · rw [update_one, h, exBind_ok, exPure, hm0]
    rfl
  · rw [update_many, h, exBind_ok, exPure]
  · rw [update_by_id, hid, exBind_ok, h, exBind_ok, exPure]

/-- C9, witness: on the demo collection the single-document update matches one
document but modifies none and returns `false`; the bulk update returns the
modified count 3 (not the matched count 5); `update_by_id` on a well-formed
identifier likewise returns `false`. -/
theorem C9_update_modified_witness :
    update_one demoCollection [] [] = Except.ok false ∧
    update_many demoCollection [] [] = Except.ok 3 ∧
    update_by_id demoCollection "507f1f77bcf86cd799439011" [] = Except.ok false := by
  refine ⟨?_, ?_, ?_⟩
  · exact ((C9_update_modified Nat demoCollection [] [] ⟨1, 0⟩).1 rfl).2 (by decide) rfl
  · exact (C9_update_modified Nat demoCollection [] [] ⟨5, 3⟩).2.1 rfl
  · exact (C9_update_modified Nat demoCollection [] [] ⟨1, 0⟩).2.2
      "507f1f77bcf86cd799439011"
      ⟨[80, 127, 31, 119, 188, 248, 108, 215, 153, 67, 144, 17]⟩ rfl rfl

/-! ## Lemmas about `collectResults` and `try_map` -/

/-- `collectResults` succeeds exactly when the per-item function succeeds on
every element. -/
theorem collectResults_ok_iff {T P E : Type} (f : T → Except E P) (xs : List T) :
    (∃ ys, collectResults f xs = Except.ok ys) ↔ ∀ x ∈ xs, ∃ y, f x = Except.ok y := by
  induction xs with
  | nil => simp [collectResults]
  | cons x rest ih =>
    cases hfx : f x with
    | error e =>
      simp only [collectResults, hfx]
      constructor
      · rintro ⟨ys, hys⟩
        exact absurd hys (by simp)
      · intro h
        obtain ⟨y, hy⟩ := h x (List.mem_cons_self x rest)
        rw [hfx] at hy
        exact absurd hy (by simp)
    | ok y =>
      simp only [collectResults, hfx]
      cases hcr : collectResults f rest with
      | error e =>
        have hrest : ¬ ∀ x ∈ rest, ∃ y, f x = Except.ok y := by
          intro hall
          obtain ⟨ys, hys⟩ := ih.mpr hall
          rw [hcr] at hys
          exact absurd hys (by simp)
        constructor
        · rintro ⟨ys, hys⟩
          exact absurd hys (by simp)
        · intro h
          exact absurd (fun z hz => h z (by simp [hz])) hrest
      | ok ys =>
        have hrest : ∀ x ∈ rest, ∃ y, f x = Except.ok y := ih.mp ⟨ys, hcr⟩
        constructor
        · intro _ z hz
          rcases List.mem_cons.mp hz with hz | hz
          · exact ⟨y, hz ▸ hfx⟩
          · exact hrest z hz
        · intro _
          exact ⟨y :: ys, rfl⟩

/-- When every element before `x` succeeds and `f x` fails with `e`,
`collectResults` returns exactly `e`. -/
theorem collectResults_first_error {T P E : Type} (f : T → Except E P) (pre : List T)
    (x : T) (post : List T) (e : E) (hpre : ∀ y ∈ pre, ∃ z, f y = Except.ok z)
    (hx : f x = Except.error e) :
    collectResults f (pre ++ x :: post) = Except.error e := by
  induction pre with
  | nil => simp [collectResults, hx]
  | cons p ps ih =>
    obtain ⟨z, hz⟩ := hpre p (by simp)
    have ih2 := ih (fun y hy => hpre y (by simp [hy]))
    simp [collectResults, hz, ih2]

/-- Unfolding of `PaginatedData.try_map` into `collectResults`. -/
theorem paginatedData_try_map_eq {T P E : Type} (d : PaginatedData T)
    (f : T → Except E P) :
    d.try_map f = collectResults f d.items >>= fun items =>
      Except.ok ⟨items, d.total_count, d.page, d.page_size, d.total_pages⟩ := rfl

/-- Unfolding of `ListData.try_map` into `collectResults`. -/
theorem listData_try_map_eq {T P E : Type} (d : ListData T) (f : T → Except E P) :
    d.try_map f = collectResults f d.items >>= fun items =>
      Except.ok ⟨items, d.total_count⟩ := rfl

/-! ## Claim C6 -/

/-- C6: `PaginatedData.map` leaves `total_count`, `page`, `page_size` and
`total_pages` unchanged while replacing `items` with the elementwise image; a
successful `try_map` preserves the same four fields and carries the collected
transformed items; `ListData`'s `map`/`try_map` likewise preserve
`total_count`. -/
theorem C6_map_preserves_metadata :
    (∀ (T P : Type) (d : PaginatedData T) (f : T → P),
      (d.map f).items = d.items.map f ∧ (d.map f).total_count = d.total_count ∧
      (d.map f).page = d.page ∧ (d.map f).page_size = d.page_size ∧
      (d.map f).total_pages = d.total_pages) ∧
    (∀ (T P E : Type) (d : PaginatedData T) (f : T → Except E P) (r : PaginatedData P),
      d.try_map f = Except.ok r →
      collectResults f d.items = Except.ok r.items ∧ r.total_count = d.total_count ∧
      r.page = d.page ∧ r.page_size = d.page_size ∧ r.total_pages = d.total_pages) ∧
    (∀ (T P : Type) (d : ListData T) (f : T → P),
      (d.map f).items = d.items.map f ∧ (d.map f).total_count = d.total_count) ∧
    (∀ (T P E : Type) (d : ListData T) (f : T → Except E P) (r : ListData P),
      d.try_map f = Except.ok r →
      collectResults f d.items = Except.ok r.items ∧ r.total_count = d.total_count) := by
  refine ⟨fun T P d f => ⟨rfl, rfl, rfl, rfl, rfl⟩, ?_, fun T P d f => ⟨rfl, rfl⟩, ?_⟩
  · intro T P E d f r h
    rw [paginatedData_try_map_eq] at h
    cases hcr : collectResults f d.items with
    | error e => rw [hcr, exBind_error] at h; exact absurd h (by simp)
    | ok ys =>
      rw [hcr, exBind_ok] at h
      cases h
      exact ⟨rfl, rfl, rfl, rfl, rfl⟩
  · intro T P E d f r h
    rw [listData_try_map_eq] at h
    cases hcr : collectResults f d.items with
    | error e => rw [hcr, exBind_error] at h; exact absurd h (by simp)
    | ok ys =>
      rw [hcr, exBind_ok] at h
      cases h
      exact ⟨rfl, rfl⟩

/-- C6, witness: the `try_map` clause applied to a concrete successful
transformation (each item incremented, metadata 25/1/10/3 untouched). -/
theorem C6_map_preserves_metadata_witness :
    collectResults (fun n => (Except.ok (n + 1) : Except String Nat)) [1, 2]
        = Except.ok [2, 3] ∧
    (25 : Nat) = 25 ∧ (1 : Nat) = 1 ∧ (10 : Nat) = 10 ∧ (3 : Nat) = 3 :=
  C6_map_preserves_metadata.2.1 Nat Nat String ⟨[1, 2], 25, 1, 10, 3⟩
    (fun n => Except.ok (n + 1)) ⟨[2, 3], 25, 1, 10, 3⟩ rfl

/-! ## Claim C7 -/

/-- C7: `try_map` (on both `PaginatedData` and `ListData`) succeeds exactly when
the per-item function succeeds on every item, and when some item fails it
returns exactly the error of the first failing item — never a partial
collection. -/
theorem C7_try_map_all_or_nothing :
    (∀ (T P E : Type) (d : PaginatedData T) (f : T → Except E P),
      (∃ r, d.try_map f = Except.ok r) ↔ ∀ x ∈ d.items, ∃ y, f x = Except.ok y) ∧
    (∀ (T P E : Type) (d : PaginatedData T) (f : T → Except E P) (pre post : List T)
      (x : T) (e : E), d.items = pre ++ x :: post →
      (∀ y ∈ pre, ∃ z, f y = Except.ok z) → f x = Except.error e →
      d.try_map f = Except.error e) ∧
    (∀ (T P E : Type) (d : ListData T) (f : T → Except E P),
      (∃ r, d.try_map f = Except.ok r) ↔ ∀ x ∈ d.items, ∃ y, f x = Except.ok y) ∧
    (∀ (T P E : Type) (d : ListData T) (f : T → Except E P) (pre post : List T)
      (x : T) (e : E), d.items = pre ++ x :: post →
      (∀ y ∈ pre, ∃ z, f y = Except.ok z) → f x = Except.error e →
      d.try_map f = Except.error e) := by
  refine ⟨?_, ?_, ?_, ?_⟩
  · intro T P E d f
    rw [← collectResults_ok_iff]
    constructor
    · rintro ⟨r, hr⟩
      rw [paginatedData_try_map_eq] at hr
      cases hcr : collectResults f d.items with
      | error e => rw [hcr, exBind_error] at hr; exact absurd hr (by simp)
      | ok ys => exact ⟨ys, rfl⟩
    · rintro ⟨ys, hys⟩
      exact ⟨⟨ys, d.total_count, d.page, d.page_size, d.total_pages⟩,
        by rw [paginatedData_try_map_eq, hys, exBind_ok]⟩
  · intro T P E d f pre post x e hitems hpre hx
    rw [paginatedData_try_map_eq, hitems,
      collectResults_first_error f pre x post e hpre hx, exBind_error]
  · intro T P E d f
    rw [← collectResults_ok_iff]
    constructor
    · rintro ⟨r, hr⟩
      rw [listData_try_map_eq] at hr
      cases hcr : collectResults f d.items with
      | error e => rw [hcr, exBind_error] at hr; exact absurd hr (by simp)
      | ok ys => exact ⟨ys, rfl⟩
    · rintro ⟨ys, hys⟩
      exact ⟨⟨ys, d.total_count⟩, by rw [listData_try_map_eq, hys, exBind_ok]⟩
  · intro T P E d f pre post x e hitems hpre hx
    rw [listData_try_map_eq, hitems,
      collectResults_first_error f pre x post e hpre hx, exBind_error]

/-- C7, witness: with one failing element among three, `try_map` is exactly the
propagated error; with an everywhere-successful function it succeeds. -/
theorem C7_try_map_all_or_nothing_witness :
    PaginatedData.try_map ⟨[1, 2, 3], 3, 1, 10, 1⟩
        (fun n => if n = 2 then Except.error "boom" else Except.ok n)
      = Except.error "boom" ∧
    ∃ r, ListData.try_map ⟨[1, 2], 2⟩ (fun n => (Except.ok n : Except String Nat))
      = Except.ok r := by
  constructor
  · exact C7_try_map_all_or_nothing.2.1 Nat Nat String ⟨[1, 2, 3], 3, 1, 10, 1⟩ _
      [1] [3] 2 "boom" rfl
      (by intro y hy; simp at hy; subst hy; exact ⟨1, rfl⟩) rfl
  · exact (C7_try_map_all_or_nothing.2.2.1 Nat Nat String ⟨[1, 2], 2⟩ _).mpr
      (fun x _ => ⟨x, rfl⟩)

/-! ## Lemmas about the filter-key recognizer -/

/-- Dropping a list from the front of itself followed by anything succeeds. -/
theorem charsDropFront_self_append (p r : List Char) :
    charsDropFront p (p ++ r) = some r := by
  induction p with
  | nil => rfl
  | cons c cs ih => simp [charsDropFront, ih]

/-- `strip_prefix` recovers the remainder of a literal concatenation. -/
theorem strDropFront_append (p r : String) : strDropFront p (p ++ r) = some r := by
  unfold strDropFront
  rw [String.data_append, charsDropFront_self_append]
  rfl

/-- `strip_suffix` recovers the stem of a literal concatenation. -/
theorem strDropBack_append (p r : String) : strDropBack p (r ++ p) = some r := by
  unfold strDropBack charsDropBack
  rw [String.data_append, List.reverse_append, charsDropFront_self_append]
  simp

/-- Every key of the bracket shape `filters[name]` normalizes to `name`. -/
theorem parseFilterKey_bracket (name : String) :
    parseFilterKey ("filters[" ++ name ++ "]") = some name := by
  unfold parseFilterKey
  rw [String.append_assoc, strDropFront_append]
  simp only [Option.some_bind]
  rw [strDropBack_append]

/-- Every key of the dot shape `filters.name` normalizes to `name`: the bracket
test fails on the eighth character, then the dot test succeeds. -/
theorem parseFilterKey_dot (name : String) :
    parseFilterKey ("filters." ++ name) = some name := by
  unfold parseFilterKey
  have hfail : strDropFront "filters[" ("filters." ++ name) = none := by
    unfold strDropFront
    rw [String.data_append]
    show (charsDropFront ['f', 'i', 'l', 't', 'e', 'r', 's', '[']
      (['f', 'i', 'l', 't', 'e', 'r', 's', '.'] ++ name.data)).map String.mk = none
    simp [charsDropFront]
  rw [hfail]
  simp only [Option.none_bind]
  rw [strDropFront_append]

/-- Looking up after a `HashMap::insert`: the inserted key maps to the new
value, every other key is unaffected. -/
theorem mapInsert_lookup (m : List (String × String)) (k v name : String) :
    (mapInsert m k v).lookup name = if name = k then some v else m.lookup name := by
  induction m with
  | nil =>
    by_cases hn : name = k
    · simp [mapInsert, List.lookup, beq_iff_eq, hn]
    · have hb : (name == k) = false := beq_eq_false_iff_ne.mpr hn
      simp [mapInsert, List.lookup, hb, hn]
  | cons p rest ih =>
    obtain ⟨k', v'⟩ := p
    by_cases hk : k' = k
    · subst hk
      by_cases hn : name = k'
      · simp [mapInsert, List.lookup, beq_iff_eq, hn]
      · have hb : (name == k') = false := beq_eq_false_iff_ne.mpr hn
        simp [mapInsert, List.lookup, hb, hn]
    · by_cases hn : name = k'
      · subst hn
        have hnk : ¬ name = k := hk
        simp [mapInsert, if_neg hk, List.lookup, beq_iff_eq, hnk]
      · have hb : (name == k') = false := beq_eq_false_iff_ne.mpr hn
        simp [mapInsert, if_neg hk, List.lookup, hb, ih]

/-- Characterization of `parsed_filters`: looking up `name` in the normalized
mapping returns the value of the last raw entry (in iteration order) whose key
normalizes to `name`. -/
theorem normalizeFilters_lookup (raw : List (String × String)) (name : String) :
    (normalizeFilters raw).lookup name = lastFilterValue name raw := by
  suffices h : ∀ acc : List (String × String),
      (raw.foldl
        (fun m kv =>
          match parseFilterKey kv.1 with
          | some k => mapInsert m k kv.2
          | none => m)
        acc).lookup name
      = match lastFilterValue name raw with
        | some w => some w
        | none => acc.lookup name by
    have h0 := h []
    cases hl : lastFilterValue name raw <;>
      simp only [hl] at h0 <;> simpa [normalizeFilters, List.lookup] using h0
  induction raw with
  | nil => intro acc; simp [lastFilterValue]
  | cons p rest ih =>
    intro acc
    obtain ⟨k, v⟩ := p
    rw [List.foldl_cons]
    rw [ih]
    cases hl : lastFilterValue name rest with
    | some w => simp [lastFilterValue, hl]
    | none =>
      simp only [lastFilterValue, hl]
      cases hp : parseFilterKey k with
      | some n =>
        simp only [hp, mapInsert_lookup]
        by_cases hn : n = name
        · subst hn
          simp
        · have hnn : name ≠ n := fun h => hn h.symm
          simp [hn, hnn]
      | none => simp [hp]

/-! ## Claim C4 -/

/-- C4: `parsed_filters` maps every bracket-form key `filters[name]` and every
dot-form key `filters.name` to an entry for the bare `name` (the bracket form is
tried first by definition of `parseFilterKey`), silently drops every key of
neither shape, and normalizes the spec's example mapping to
`age ↦ 30, name ↦ Alice` with `page` dropped. -/
theorem C4_parsed_filters :
    (∀ name : String, parseFilterKey ("filters[" ++ name ++ "]") = some name) ∧
    (∀ name : String, parseFilterKey ("filters." ++ name) = some name) ∧
    (∀ (raw1 raw2 : List (String × String)) (k v : String), parseFilterKey k = none →
      normalizeFilters (raw1 ++ (k, v) :: raw2) = normalizeFilters (raw1 ++ raw2)) ∧
    parseFilterKey "page" = none ∧
    ListQuery.parsed_filters ⟨none, SortOrder.Desc, none,
        some [("filters[age]", "30"), ("filters.name", "Alice"), ("page", "1")]⟩
      = some [("age", "30"), ("name", "Alice")] := by
  refine ⟨parseFilterKey_bracket, parseFilterKey_dot, ?_, by decide, by decide⟩
  intro raw1 raw2 k v h
  unfold normalizeFilters
  rw [List.foldl_append, List.foldl_append, List.foldl_cons]
  simp [h]

/-- C4, witness: the key-dropping clause applied at the concrete raw mapping
with the unrecognized key `page` in the middle. -/
theorem C4_parsed_filters_witness :
    normalizeFilters ([("filters[age]", "30")] ++ ("page", "1") :: [("filters.name", "Alice")])
      = normalizeFilters ([("filters[age]", "30")] ++ [("filters.name", "Alice")]) :=
  C4_parsed_filters.2.2.1 [("filters[age]", "30")] [("filters.name", "Alice")]
    "page" "1" (by decide)

/-! ## Claim C5 -/

/-- C5: when several raw keys normalize to the same `name` (in particular both
`filters[name]` and `filters.name`), the entry for `name` in the normalized
mapping carries the value of the raw entry iterated last, for every iteration
order of the raw mapping; with the two orders of the same two-entry mapping the
winner flips accordingly. -/
theorem C5_later_entry_wins :
    (∀ (raw : List (String × String)) (name : String),
      (normalizeFilters raw).lookup name = lastFilterValue name raw) ∧
    (normalizeFilters [("filters[n]", "a"), ("filters.n", "b")]).lookup "n" = some "b" ∧
    (normalizeFilters [("filters.n", "b"), ("filters[n]", "a")]).lookup "n" = some "a" :=
  ⟨normalizeFilters_lookup, by decide, by decide⟩

/-! ## Claim C8 -/

/-- `hexDecode` succeeds exactly on even-length all-hex character lists. -/
theorem hexDecode_some_iff : ∀ l : List Char,
    (∃ bs, hexDecode l = some bs) ↔
      (l.length % 2 = 0 ∧ ∀ c ∈ l, (hexDigitVal c).isSome)
  | [] => by simp [hexDecode]
  | [c] => by simp [hexDecode]
  | c1 :: c2 :: rest => by
    have ih := hexDecode_some_iff rest
    constructor
    · rintro ⟨bs, hbs⟩
      simp only [hexDecode] at hbs
      cases h1 : hexDigitVal c1 with
      | none => rw [h1] at hbs; simp at hbs
      | some a =>
        rw [h1] at hbs
        cases h2 : hexDigitVal c2 with
        | none => rw [h2] at hbs; simp at hbs
        | some b =>
          rw [h2] at hbs
          cases h3 : hexDecode rest with
          | none => rw [h3] at hbs; simp at hbs
          | some ds =>
            obtain ⟨hlen, hall⟩ := ih.mp ⟨ds, h3⟩
            refine ⟨by simp [List.length_cons]; omega, ?_⟩
            intro c hc
            rcases List.mem_cons.mp hc with hc | hc
            · rw [hc, h1]; rfl
            · rcases List.mem_cons.mp hc with hc | hc
              · rw [hc, h2]; rfl
              · exact hall c hc
    · rintro ⟨hlen, hall⟩
      obtain ⟨a, ha⟩ := Option.isSome_iff_exists.mp (hall c1 (by simp))
      obtain ⟨b, hb⟩ := Option.isSome_iff_exists.mp (hall c2 (by simp))
      have hlen2 : rest.length % 2 = 0 := by simp [List.length_cons] at hlen; omega
      obtain ⟨ds, hds⟩ := ih.mpr ⟨hlen2, fun c hc => hall c (by simp [hc])⟩
      exact ⟨(16 * a + b) :: ds, by simp [hexDecode, ha, hb, hds]⟩

/-- C8: identifier parsing succeeds on exactly the strings of the store's
grammar (24 hexadecimal characters), yielding the hex-decoded identifier, and
on every other string returns the typed `InvalidIdentifier` failure as an error
value (the function is total — it cannot throw); the spec's example strings
behave accordingly. -/
theorem C8_parse_object_id :
    (∀ s : String, isValidOidString s →
      ∃ bs, hexDecode s.data = some bs ∧ parse_object_id s = Except.ok ⟨bs⟩) ∧
    (∀ s : String, ¬ isValidOidString s →
      parse_object_id s = Except.error (MongoError.custom OidError.invalidIdentifier)) ∧
    parse_object_id "invalid"
      = Except.error (MongoError.custom OidError.invalidIdentifier) ∧
    parse_object_id "" = Except.error (MongoError.custom OidError.invalidIdentifier) ∧
    parse_object_id "507f1f77"
      = Except.error (MongoError.custom OidError.invalidIdentifier) ∧
    parse_object_id "507f1f77bcf86cd799439011"
      = Except.ok ⟨[80, 127, 31, 119, 188, 248, 108, 215, 153, 67, 144, 17]⟩ := by
  refine ⟨?_, ?_, rfl, rfl, rfl, rfl⟩
  · intro s hs
    obtain ⟨hlen, hall⟩ := hs
    have hdata : s.data.length = 24 := hlen
    obtain ⟨bs, hbs⟩ := (hexDecode_some_iff s.data).mpr ⟨by omega, hall⟩
    refine ⟨bs, hbs, ?_⟩
    unfold parse_object_id ObjectId.parse_str
    rw [if_pos hlen, hbs]
    rfl
  · intro s hs
    unfold parse_object_id ObjectId.parse_str
    by_cases hlen : s.length = 24
    · rw [if_pos hlen]
      cases hd : hexDecode s.data with
      | some bs =>
        have hdata : s.data.length = 24 := hlen
        obtain ⟨_, hall⟩ := (hexDecode_some_iff s.data).mp ⟨bs, hd⟩
        exact absurd ⟨hlen, hall⟩ hs
      | none => rfl
    · rw [if_neg hlen]
      rfl

/-- C8, witness: the theorem applied at the valid example identifier and at the
malformed string `invalid`. -/
theorem C8_parse_object_id_witness :
    (∃ bs, hexDecode "507f1f77bcf86cd799439011".data = some bs ∧
      parse_object_id "507f1f77bcf86cd799439011" = Except.ok ⟨bs⟩) ∧
    parse_object_id "invalid"
      = Except.error (MongoError.custom OidError.invalidIdentifier) :=
  ⟨C8_parse_object_id.1 "507f1f77bcf86cd799439011" (by decide),
    C8_parse_object_id.2.1 "invalid" (by decide)⟩
